import Mathlib

/-
Shallow embedding of the incremental ridge-regression core of PyRCN:
the classes IncrementalRegression (src/src/pyrcn/linear_model/_incremental_regression.py)
and FastIncrementalRegression (src/pyrcn/linear_model/_fast_incremental_regression.py).

Conventions of the embedding:
* Real (floating point) arithmetic is modelled by exact arithmetic over the reals.
* A numpy array that the constructor initialises to the shape-() placeholder
  np.ndarray([]) (IncrementalRegression) or to None (FastIncrementalRegression)
  is modelled as an Option that is none until the corresponding assignment runs;
  "arr.shape == ()" and "arr is None" tests become isNone tests.
* A batch is a list of samples, each sample a pair of a feature row (Fin f -> R)
  and a target row (Fin k -> R).  This makes X and y of a batch have the same
  number of rows by construction; the dynamic shape checks are modelled
  separately (see the Dyn namespace below).
* sklearn.preprocessing.StandardScaler(copy=False) is an external collaborator;
  it is modelled from its documented semantics in exact arithmetic: the running
  statistics are kept as a sample count together with per-column sums and sums
  of squares; mean and the biased variance are derived from them, and transform
  centers each column and divides by sqrt(var), with unit scale for a column of
  zero variance (sklearn handles zero variance via _handle_zeros_in_scale).
  partial_fit merges the batch statistics into the running ones; fit recomputes
  them from the batch alone.  StandardScaler has copy=False, so transform
  rewrites the preprocessed matrix in place: preprocessing returns the
  transformed rows.
* np.linalg.inv is modelled by the Mathlib matrix inverse; on singular input the
  library raises while the model yields the adjugate-based junk value.  Every
  theorem below that touches an inverse establishes invertibility of the
  inverted matrix (a Gram matrix plus a positive multiple of the identity).
-/

namespace PyRCN

open Matrix

/-- Errors raised by the modelled methods. -/
inductive PyErr where
  | notFitted
  | valueError
  | attributeError
deriving DecidableEq

/-- Hyperparameters fixed at construction of either regressor. -/
structure Params where
  alpha : ℝ
  fit_intercept : Bool
  normalize : Bool

/-- Number of columns of the preprocessed design matrix: the raw features plus
the constant intercept column appended when fit_intercept is set. -/
@[reducible] def dimP (p : Params) (f : ℕ) : ℕ :=
  match p.fit_intercept with
  | true => f + 1
  | false => f

theorem f_le_dimP (p : Params) (f : ℕ) : f ≤ dimP p f := by
  rcases p with ⟨a, fi, n⟩
  cases fi
  · exact le_rfl
  · exact Nat.le_succ f

/-- Running statistics of the StandardScaler: sample count, per-column sum and
per-column sum of squares over all samples seen. -/
structure ScalerStats (d : ℕ) where
  count : ℕ
  sum : Fin d → ℝ
  sumsq : Fin d → ℝ

/-- Statistics of a single batch of rows. -/
def batchStats {d : ℕ} (rows : List (Fin d → ℝ)) : ScalerStats d :=
  ⟨rows.length, fun j => (rows.map fun r => r j).sum,
    fun j => (rows.map fun r => r j ^ 2).sum⟩

/-- Merge a new batch into running statistics (StandardScaler.partial_fit). -/
def combineStats {d : ℕ} (s : ScalerStats d) (rows : List (Fin d → ℝ)) : ScalerStats d :=
  ⟨s.count + rows.length, fun j => s.sum j + (rows.map fun r => r j).sum,
    fun j => s.sumsq j + (rows.map fun r => r j ^ 2).sum⟩

/-- Scale used by StandardScaler.transform: sqrt of the variance, with zero
variance replaced by a unit scale. -/
noncomputable def scaleOf (v : ℝ) : ℝ := if v = 0 then 1 else Real.sqrt v

/-- Column mean derived from running statistics. -/
noncomputable def ScalerStats.mean {d : ℕ} (s : ScalerStats d) (j : Fin d) : ℝ :=
  s.sum j / s.count

/-- Biased column variance derived from running statistics. -/
noncomputable def ScalerStats.variance {d : ℕ} (s : ScalerStats d) (j : Fin d) : ℝ :=
  s.sumsq j / s.count - s.mean j ^ 2

/-- StandardScaler.transform of one row: center and divide by the scale. -/
noncomputable def ScalerStats.transform {d : ℕ} (s : ScalerStats d) (r : Fin d → ℝ) :
    Fin d → ℝ :=
  fun j => (r j - s.mean j) / scaleOf (s.variance j)

/-- One raw sample: a feature row paired with a target row. -/
abbrev Sample (f k : ℕ) := (Fin f → ℝ) × (Fin k → ℝ)

/-- A batch of samples. -/
abbrev Batch (f k : ℕ) := List (Sample f k)

/-- Intercept augmentation of one row (np.hstack with a ones column). -/
def preRow (p : Params) {f : ℕ} (x : Fin f → ℝ) : Fin (dimP p f) → ℝ :=
  fun j => if h : (j : ℕ) < f then x ⟨j, h⟩ else 1

/-- The _preprocessing method shared by both classes: append the intercept
column when fit_intercept is set, then, when normalize is set, either
partial_fit the scaler and transform with the updated statistics
(partial_normalize = true) or refit the scaler from scratch on this batch and
transform (partial_normalize = false, i.e. scaler.fit_transform).  Returns the
preprocessed rows and the updated scaler state. -/
noncomputable def preprocessing (p : Params) {f : ℕ}
    (sc : Option (ScalerStats (dimP p f))) (X : List (Fin f → ℝ))
    (partial_normalize : Bool) :
    List (Fin (dimP p f) → ℝ) × Option (ScalerStats (dimP p f)) :=
  let X1 := X.map (preRow p)
  if p.normalize then
    if partial_normalize then
      let st := match sc with
        | none => batchStats X1
        | some s => combineStats s X1
      (X1.map st.transform, some st)
    else
      let st := batchStats X1
      (X1.map st.transform, some st)
  else (X1, sc)

/-- Scaler state after a call to _preprocessing. -/
noncomputable def scalerNext (p : Params) {f : ℕ}
    (sc : Option (ScalerStats (dimP p f))) (X : List (Fin f → ℝ)) (pn : Bool) :
    Option (ScalerStats (dimP p f)) :=
  (preprocessing p sc X pn).2

/-- Preprocessed design matrix of a batch (X_preprocessed, one row per sample). -/
noncomputable def designMat (p : Params) {f k : ℕ}
    (sc : Option (ScalerStats (dimP p f))) (b : Batch f k) (pn : Bool) :
    Matrix (Fin b.length) (Fin (dimP p f)) ℝ :=
  Matrix.of fun i j => ((preprocessing p sc (b.map Prod.fst) pn).1.getD i 0) j

/-- Target matrix of a batch (y, one row per sample). -/
def targetMat {f k : ℕ} (b : Batch f k) : Matrix (Fin b.length) (Fin k) ℝ :=
  Matrix.of fun i j => ((b.map Prod.snd).getD i 0) j

/-- Preprocessed design matrix of a bare feature-row list with
partial_normalize = false, as used by predict. -/
noncomputable def predictDesign (p : Params) {f : ℕ}
    (sc : Option (ScalerStats (dimP p f))) (X : List (Fin f → ℝ)) :
    Matrix (Fin X.length) (Fin (dimP p f)) ℝ :=
  Matrix.of fun i j => ((preprocessing p sc X false).1.getD i 0) j

/-- State of an IncrementalRegression instance: the accumulators _K and _xTy,
the output weights, and the scaler.  none models the unset sentinel. -/
structure IRState (p : Params) (f k : ℕ) where
  K : Option (Matrix (Fin (dimP p f)) (Fin (dimP p f)) ℝ)
  xTy : Option (Matrix (Fin (dimP p f)) (Fin k) ℝ)
  output_weights : Option (Matrix (Fin (dimP p f)) (Fin k) ℝ)
  scaler : Option (ScalerStats (dimP p f))

/-- Freshly constructed IncrementalRegression. -/
def initIR (p : Params) (f k : ℕ) : IRState p f k := ⟨none, none, none, none⟩

/-- IncrementalRegression.partial_fit.  Validation is omitted here because the
batch representation makes X and y row counts agree by construction (the
dynamic shape semantics live in the Dyn namespace); the method preprocesses,
optionally resets _K/_xTy/_output_weights (the scaler is not reset),
accumulates, and then either returns early (postpone_inverse with unset output
weights) or inverts the updated regularised Gram matrix and solves. -/
noncomputable def partialFit (p : Params) {f k : ℕ} (s : IRState p f k)
    (b : Batch f k) (partial_normalize reset postpone_inverse : Bool) :
    IRState p f k :=
  let Xp := designMat p s.scaler b partial_normalize
  let Y := targetMat b
  let sc2 := scalerNext p s.scaler (b.map Prod.fst) partial_normalize
  let s0 : IRState p f k :=
    if reset then ⟨none, none, none, sc2⟩
    else ⟨s.K, s.xTy, s.output_weights, sc2⟩
  let Knew := match s0.K with
    | none => Xpᵀ * Xp
    | some K0 => K0 + Xpᵀ * Xp
  let Cnew := match s0.xTy with
    | none => Xpᵀ * Y
    | some C0 => C0 + Xpᵀ * Y
  if postpone_inverse && s0.output_weights.isNone then
    ⟨some Knew, some Cnew, s0.output_weights, s0.scaler⟩
  else
    let P := (Knew + p.alpha • (1 : Matrix (Fin (dimP p f)) (Fin (dimP p f)) ℝ))⁻¹
    match s0.output_weights with
    | none => ⟨some Knew, some Cnew, some (P * Cnew), s0.scaler⟩
    | some W =>
        ⟨some Knew, some Cnew, some (W + P * (Xpᵀ * (Y - Xp * W))), s0.scaler⟩

/-- IncrementalRegression.fit: partial_fit with partial_normalize = False,
reset = True, validate = True (and the default postpone_inverse = False). -/
noncomputable def fit (p : Params) {f k : ℕ} (s : IRState p f k) (b : Batch f k) :
    IRState p f k :=
  partialFit p s b false true false

/-- IncrementalRegression.predict: raises NotFittedError while the output
weights are unset, otherwise multiplies the preprocessed input
(partial_normalize = false, which refits the scaler when normalize is set)
with the output weights.  The returned state records the scaler side effect. -/
noncomputable def predict (p : Params) {f k : ℕ} (s : IRState p f k)
    (X : List (Fin f → ℝ)) :
    Except PyErr (Matrix (Fin X.length) (Fin k) ℝ) × IRState p f k :=
  match s.output_weights with
  | none => (Except.error PyErr.notFitted, s)
  | some W =>
      (Except.ok (predictDesign p s.scaler X * W),
        ⟨s.K, s.xTy, s.output_weights, scalerNext p s.scaler X false⟩)

/-- The coef_ property, shared shape between both classes: none while the
output weights are unset (modelling the shape-() placeholder respectively the
implicit None), otherwise the transpose of W restricted to the first f columns
(which strips the intercept row when fit_intercept is set and is the plain
transpose otherwise, since then dimP p f = f). -/
def coefFromW (p : Params) {f k : ℕ}
    (w : Option (Matrix (Fin (dimP p f)) (Fin k) ℝ)) :
    Option (Matrix (Fin k) (Fin f) ℝ) :=
  w.map fun W => Matrix.of fun i j => W ⟨j, lt_of_lt_of_le j.isLt (f_le_dimP p f)⟩ i

/-- The intercept_ property: the last row of W transposed when the output
weights are set and fit_intercept holds, otherwise the empty sentinel. -/
def interceptFromW (p : Params) {f k : ℕ}
    (w : Option (Matrix (Fin (dimP p f)) (Fin k) ℝ)) : Option (Fin k → ℝ) :=
  match w with
  | some W =>
      if h : p.fit_intercept then
        some (fun i => W ⟨f, by simp only [dimP, h]; omega⟩ i)
      else none
  | none => none

/-- coef_ of an IncrementalRegression state. -/
def coefOpt (p : Params) {f k : ℕ} (s : IRState p f k) :
    Option (Matrix (Fin k) (Fin f) ℝ) :=
  coefFromW p s.output_weights

/-- intercept_ of an IncrementalRegression state. -/
def interceptOpt (p : Params) {f k : ℕ} (s : IRState p f k) : Option (Fin k → ℝ) :=
  interceptFromW p s.output_weights

/-- State of a FastIncrementalRegression instance.  The attribute _n_samples is
read by the solve step of partial_fit; no method of the class ever assigns it,
which the model renders as an Option field that no operation sets. -/
structure FState (p : Params) (f k : ℕ) where
  xTx : Option (Matrix (Fin (dimP p f)) (Fin (dimP p f)) ℝ)
  xTy : Option (Matrix (Fin (dimP p f)) (Fin k) ℝ)
  output_weights : Option (Matrix (Fin (dimP p f)) (Fin k) ℝ)
  n_samples : Option ℕ
  scaler : Option (ScalerStats (dimP p f))

/-- Freshly constructed FastIncrementalRegression. -/
def FState.init (p : Params) (f k : ℕ) : FState p f k := ⟨none, none, none, none, none⟩

/-- FastIncrementalRegression.partial_fit: preprocess, accumulate _xTx/_xTy,
then, when update_output_weights is requested, evaluate the solve expression,
which begins by reading self._n_samples; an unset attribute raises
AttributeError after the accumulators were already mutated.  When the solve
succeeds and finalize is set, the accumulators are discarded. -/
noncomputable def fastPartialFit (p : Params) {f k : ℕ} (s : FState p f k)
    (b : Batch f k) (partial_normalize validate update_output_weights finalize : Bool) :
    FState p f k × Option PyErr :=
  let Xp := designMat p s.scaler b partial_normalize
  let Y := targetMat b
  let xTx1 := match s.xTx with
    | none => Xpᵀ * Xp
    | some A => A + Xpᵀ * Xp
  let xTy1 := match s.xTy with
    | none => Xpᵀ * Y
    | some C0 => C0 + Xpᵀ * Y
  let s1 : FState p f k :=
    ⟨some xTx1, some xTy1, s.output_weights, s.n_samples,
      scalerNext p s.scaler (b.map Prod.fst) partial_normalize⟩
  if update_output_weights then
    match s1.n_samples with
    | none => (s1, some PyErr.attributeError)
    | some n =>
        let W := (xTx1 + (p.alpha * (n : ℝ)) •
            (1 : Matrix (Fin (dimP p f)) (Fin (dimP p f)) ℝ))⁻¹ * xTy1
        if finalize then
          (⟨none, none, some W, s1.n_samples, s1.scaler⟩, none)
        else
          (⟨some xTx1, some xTy1, some W, s1.n_samples, s1.scaler⟩, none)
  else (s1, none)

/-- FastIncrementalRegression.fit: partial_fit with partial_normalize = False,
validate = True, update_output_weights = True, finalize = True.  Note: no
reset of the accumulators happens. -/
noncomputable def fastFit (p : Params) {f k : ℕ} (s : FState p f k) (b : Batch f k) :
    FState p f k × Option PyErr :=
  fastPartialFit p s b false true true true

/-- FastIncrementalRegression.predict, analogous to predict above. -/
noncomputable def fastPredict (p : Params) {f k : ℕ} (s : FState p f k)
    (X : List (Fin f → ℝ)) :
    Except PyErr (Matrix (Fin X.length) (Fin k) ℝ) × FState p f k :=
  match s.output_weights with
  | none => (Except.error PyErr.notFitted, s)
  | some W =>
      (Except.ok (predictDesign p s.scaler X * W),
        ⟨s.xTx, s.xTy, s.output_weights, s.n_samples, scalerNext p s.scaler X false⟩)

/-- coef_ of a FastIncrementalRegression state (same code as the running
variant, with None as the unfitted result). -/
def fastCoefOpt (p : Params) {f k : ℕ} (s : FState p f k) :
    Option (Matrix (Fin k) (Fin f) ℝ) :=
  coefFromW p s.output_weights

/-- intercept_ of a FastIncrementalRegression state. -/
def fastInterceptOpt (p : Params) {f k : ℕ} (s : FState p f k) : Option (Fin k → ℝ) :=
  interceptFromW p s.output_weights

/-
Dynamic-shape model of IncrementalRegression.partial_fit for instances with
normalize = False (the scaler branch is the identity for such instances and is
therefore omitted here).  This model keeps the exact numpy shape semantics:
X and y are dynamically shaped rational matrices, _validate_data checks that
the sample counts agree (and that the batch is nonempty), and the accumulator
updates `self._K += ...` and `self._xTy += ...` follow the numpy in-place
broadcasting rule: the added contribution must have each dimension equal to
the accumulator dimension or equal to one (in which case it is broadcast), and
otherwise a ValueError is raised at that point, with all mutations performed
before that point kept. -/

namespace Dyn

/-- A dynamically shaped rational matrix (a numpy 2-D array). -/
abbrev DMat := (nm : ℕ × ℕ) × Matrix (Fin nm.1) (Fin nm.2) ℚ

/-- Broadcast lookup: entry of B at (i, j) after broadcasting B over a larger
shape; an axis of size one repeats its single index. -/
def dGet (B : DMat) (i j : ℕ) : ℚ :=
  if h : 0 < B.1.1 ∧ 0 < B.1.2 then
    B.2 ⟨i % B.1.1, Nat.mod_lt i h.1⟩ ⟨j % B.1.2, Nat.mod_lt j h.2⟩
  else 0

/-- Result size of numpy broadcasting along one axis. -/
def bcDim (a b : ℕ) : Option ℕ :=
  if a = b then some a else if a = 1 then some b else if b = 1 then some a else none

/-- numpy elementwise addition with broadcasting. -/
def dAdd (A B : DMat) : Option DMat :=
  match bcDim A.1.1 B.1.1, bcDim A.1.2 B.1.2 with
  | some r, some c => some ⟨(r, c), Matrix.of fun i j => dGet A i j + dGet B i j⟩
  | _, _ => none

/-- numpy elementwise subtraction with broadcasting. -/
def dSub (A B : DMat) : Option DMat :=
  match bcDim A.1.1 B.1.1, bcDim A.1.2 B.1.2 with
  | some r, some c => some ⟨(r, c), Matrix.of fun i j => dGet A i j - dGet B i j⟩
  | _, _ => none

/-- numpy in-place addition A += B: B must broadcast to the shape of A,
otherwise a ValueError is raised and A is left unmodified. -/
def iadd (A B : DMat) : Option DMat :=
  if (B.1.1 == A.1.1 || B.1.1 == 1) && (B.1.2 == A.1.2 || B.1.2 == 1) then
    some ⟨A.1, Matrix.of fun i j => A.2 i j + dGet B i j⟩
  else none

/-- Transpose. -/
def dT (A : DMat) : DMat := ⟨(A.1.2, A.1.1), A.2ᵀ⟩

/-- Matrix product; the inner dimensions must agree. -/
def dMul (A B : DMat) : Option DMat :=
  if h : A.1.2 = B.1.1 then
    some ⟨(A.1.1, B.1.2), Matrix.of fun i j =>
      ∑ t : Fin A.1.2, A.2 i t * B.2 ⟨t.1, h ▸ t.isLt⟩ j⟩
  else none

/-- np.identity. -/
def dEye (n : ℕ) : DMat := ⟨(n, n), 1⟩

/-- Scalar multiple. -/
def dSmul (c : ℚ) (A : DMat) : DMat := ⟨A.1, c • A.2⟩

/-- np.linalg.inv: requires a square argument and raises LinAlgError on an
exactly singular one. -/
def dInv (A : DMat) : Option DMat :=
  if h : A.1.1 = A.1.2 then
    let M : Matrix (Fin A.1.1) (Fin A.1.1) ℚ :=
      Matrix.of fun i j => A.2 i ⟨j.1, h ▸ j.isLt⟩
    if M.det = 0 then none else some ⟨(A.1.1, A.1.1), M.det⁻¹ • M.adjugate⟩
  else none

/-- Intercept augmentation (np.hstack with a ones column), dynamic shape. -/
def dynPre (fit_intercept : Bool) (X : DMat) : DMat :=
  if fit_intercept then
    ⟨(X.1.1, X.1.2 + 1), Matrix.of fun i j =>
      if h : (j : ℕ) < X.1.2 then X.2 i ⟨j, h⟩ else 1⟩
  else X

/-- Accumulator state of the dynamic model. -/
structure DynState where
  K : Option DMat
  xTy : Option DMat
  output_weights : Option DMat
deriving DecidableEq

/-- Freshly constructed instance. -/
def dynInit : DynState := ⟨none, none, none⟩

/-- IncrementalRegression.partial_fit with dynamic shapes (normalize = False
instances).  Mirrors the source order: validation, preprocessing, optional
reset, _K update, _xTy update, then the solve unless it is postponed while the
output weights are unset.  Each numpy operation that can raise turns into an
Option; a failure returns the state mutated so far together with the error. -/
def dynPartialFit (alpha : ℚ) (fit_intercept : Bool) (s : DynState) (X Y : DMat)
    (reset validate postpone_inverse : Bool) : DynState × Option PyErr :=
  if validate && (X.1.1 != Y.1.1 || X.1.1 == 0 || X.1.2 == 0) then
    (s, some PyErr.valueError)
  else
    let Xp := dynPre fit_intercept X
    let s0 : DynState := if reset then ⟨none, none, none⟩ else s
    let contribK : DMat := ⟨(Xp.1.2, Xp.1.2), Xp.2ᵀ * Xp.2⟩
    let KStep : Option DMat := match s0.K with
      | none => some contribK
      | some K0 => iadd K0 contribK
    match KStep with
    | none => (s0, some PyErr.valueError)
    | some K1 =>
        let CStep : Option DMat := match s0.xTy with
          | none => dMul (dT Xp) Y
          | some C0 => match dMul (dT Xp) Y with
            | none => none
            | some c => iadd C0 c
        match CStep with
        | none => (⟨some K1, s0.xTy, s0.output_weights⟩, some PyErr.valueError)
        | some C1 =>
            let s2 : DynState := ⟨some K1, some C1, s0.output_weights⟩
            if postpone_inverse && s2.output_weights.isNone then (s2, none)
            else
              let slv : Option DMat := do
                let M ← dAdd K1 (dSmul alpha (dEye Xp.1.2))
                let P ← dInv M
                match s2.output_weights with
                | none => dMul P C1
                | some W0 => do
                    let XW ← dMul Xp W0
                    let R ← dSub Y XW
                    let T ← dMul (dT Xp) R
                    let D ← dMul P T
                    iadd W0 D
              match slv with
              | none => (s2, some PyErr.valueError)
              | some W1 => (⟨some K1, some C1, some W1⟩, none)

end Dyn

/- Concrete instances used by the example-level theorems below. -/

/-- The 1 x 1 real matrix with the given entry. -/
def mat1 (q : ℝ) : Matrix (Fin 1) (Fin 1) ℝ := Matrix.of fun _ _ => q

/-- Hyperparameters with normalization enabled, no intercept, alpha = 1. -/
@[reducible] def pNorm : Params := ⟨1, false, true⟩

/-- Hyperparameters without normalization or intercept, alpha = 1. -/
@[reducible] def pPlain : Params := ⟨1, false, false⟩

/-- Singleton batch with feature 0 and target 0. -/
@[reducible] def bA : Batch 1 1 := [(fun _ => 0, fun _ => 0)]

/-- Singleton batch with feature 2 and target 2. -/
@[reducible] def bB : Batch 1 1 := [(fun _ => 2, fun _ => 2)]

/-- Singleton batch with feature 1 and target 1. -/
@[reducible] def bUnit : Batch 1 1 := [(fun _ => 1, fun _ => 1)]

/-- Hyperparameters with an intercept, no normalization, alpha = 1. -/
@[reducible] def pInt : Params := ⟨1, true, false⟩

/-- A concrete two-row weight matrix for the intercept-accessor example. -/
def W7 : Matrix (Fin (dimP pInt 1)) (Fin 1) ℝ := Matrix.of fun _ _ => 7

/-- A preprocessed sample: design row paired with target row. -/
abbrev PPair (d k : ℕ) := (Fin d → ℝ) × (Fin k → ℝ)

/-- Gram accumulator of a list of preprocessed samples; equals Xᵀ * X of the
stacked design matrix. -/
def gAcc {d k : ℕ} (R : List (PPair d k)) : Matrix (Fin d) (Fin d) ℝ :=
  (R.map fun a => vecMulVec a.1 a.1).sum

/-- Cross accumulator of a list of preprocessed samples; equals Xᵀ * Y. -/
def cAcc {d k : ℕ} (R : List (PPair d k)) : Matrix (Fin d) (Fin k) ℝ :=
  (R.map fun a => vecMulVec a.1 a.2).sum


/- Helper lemmas: entrywise list sums, Gram accumulators, and the algebra of
the recursive least-squares update. -/

theorem eq_mat1 (M : Matrix (Fin 1) (Fin 1) ℝ) : M = mat1 (M 0 0) := by
  ext i j; fin_cases i; fin_cases j; rfl

theorem mat1_add (a b : ℝ) : mat1 a + mat1 b = mat1 (a + b) := by
  ext i j; simp [mat1]

theorem mat1_sub (a b : ℝ) : mat1 a - mat1 b = mat1 (a - b) := by
  ext i j; simp [mat1]

theorem mat1_mul (a b : ℝ) : mat1 a * mat1 b = mat1 (a * b) := by
  ext i j; simp [mat1, Matrix.mul_apply]

theorem mat1_transpose (a : ℝ) : (mat1 a)ᵀ = mat1 a := by
  ext i j; rfl

theorem mat1_smul (r a : ℝ) : r • mat1 a = mat1 (r * a) := by
  ext i j; simp [mat1]

theorem one_mat1 : (1 : Matrix (Fin 1) (Fin 1) ℝ) = mat1 1 := by
  ext i j; fin_cases i; fin_cases j; simp [mat1, Matrix.one_apply]

theorem mat1_inv (a : ℝ) : (mat1 a)⁻¹ = mat1 a⁻¹ := by
  rw [Matrix.inv_def, Matrix.adjugate_fin_one, Matrix.det_fin_one, Ring.inverse_eq_inv]
  ext i j; fin_cases i; fin_cases j
  simp [mat1, Matrix.smul_apply, Matrix.one_apply]

theorem gAcc_nil {d k : ℕ} : gAcc ([] : List (PPair d k)) = 0 := rfl

theorem cAcc_nil {d k : ℕ} : cAcc ([] : List (PPair d k)) = 0 := rfl

theorem gAcc_cons {d k : ℕ} (a : PPair d k) (R : List (PPair d k)) :
    gAcc (a :: R) = vecMulVec a.1 a.1 + gAcc R := by
  simp [gAcc, List.sum_cons]

theorem cAcc_cons {d k : ℕ} (a : PPair d k) (R : List (PPair d k)) :
    cAcc (a :: R) = vecMulVec a.1 a.2 + cAcc R := by
  simp [cAcc, List.sum_cons]

theorem vecMulVec_one_dim (r y : Fin 1 → ℝ) : vecMulVec r y = mat1 (r 0 * y 0) := by
  ext i j; fin_cases i; fin_cases j; simp [vecMulVec_apply, mat1]

theorem listSum_apply {m n : Type*} (L : List (Matrix m n ℝ)) (i : m) (j : n) :
    L.sum i j = (L.map fun M => M i j).sum := by
  induction L with
  | nil => rfl
  | cons M L ih => simp [List.sum_cons, Matrix.add_apply, ih]

theorem sum_fin_getD_pair {A B γ : Type*} [AddCommMonoid γ] (dA : A) (dB : B) :
    ∀ (n : ℕ) (l₁ : List A) (l₂ : List B), l₁.length = n → l₂.length = n →
      ∀ g : A → B → γ,
        ∑ i : Fin n, g (l₁.getD i dA) (l₂.getD i dB)
          = ((l₁.zip l₂).map fun a => g a.1 a.2).sum := by
  intro n
  induction n with
  | zero =>
      intro l₁ l₂ h₁ h₂ g
      rw [List.length_eq_zero] at h₁ h₂
      subst h₁; subst h₂; simp
  | succ m ih =>
      intro l₁ l₂ h₁ h₂ g
      cases l₁ with
      | nil => simp at h₁
      | cons a l₁ =>
          cases l₂ with
          | nil => simp at h₂
          | cons b l₂ =>
              rw [Fin.sum_univ_succ]
              simp only [Fin.val_zero, Fin.val_succ, List.getD_cons_zero,
                List.getD_cons_succ, List.zip_cons_cons, List.map_cons, List.sum_cons]
              have h₁' : l₁.length = m := by simpa using h₁
              have h₂' : l₂.length = m := by simpa using h₂
              rw [ih l₁ l₂ h₁' h₂' g]

theorem gAcc_append {d k : ℕ} (R S : List (PPair d k)) :
    gAcc (R ++ S) = gAcc R + gAcc S := by
  simp [gAcc, List.sum_append]

theorem cAcc_append {d k : ℕ} (R S : List (PPair d k)) :
    cAcc (R ++ S) = cAcc R + cAcc S := by
  simp [cAcc, List.sum_append]

theorem preprocessing_length (p : Params) {f : ℕ}
    (sc : Option (ScalerStats (dimP p f))) (X : List (Fin f → ℝ)) (pn : Bool) :
    (preprocessing p sc X pn).1.length = X.length := by
  unfold preprocessing
  by_cases hn : p.normalize
  · by_cases hp : pn <;> simp [hn, hp]
  · simp [hn]

/-- The preprocessed samples contributed by one partial_fit call: the
preprocessed design rows zipped with the target rows. -/
noncomputable def newPairs (p : Params) {f k : ℕ}
    (sc : Option (ScalerStats (dimP p f))) (b : Batch f k) (pn : Bool) :
    List (PPair (dimP p f) k) :=
  ((preprocessing p sc (b.map Prod.fst) pn).1).zip (b.map Prod.snd)

theorem designMat_gram (p : Params) {f k : ℕ}
    (sc : Option (ScalerStats (dimP p f))) (b : Batch f k) (pn : Bool) :
    (designMat p sc b pn)ᵀ * designMat p sc b pn = gAcc (newPairs p sc b pn) := by
  have h₁ : (preprocessing p sc (b.map Prod.fst) pn).1.length = b.length := by
    rw [preprocessing_length, List.length_map]
  have h₂ : (b.map Prod.snd).length = b.length := List.length_map _ _
  ext i j
  rw [Matrix.mul_apply, gAcc, newPairs, listSum_apply, List.map_map]
  simp only [Function.comp_def, vecMulVec_apply]
  rw [← sum_fin_getD_pair (0 : Fin (dimP p f) → ℝ) (0 : Fin k → ℝ) b.length
      _ _ h₁ h₂ (fun r _ => r i * r j)]
  simp [designMat, Matrix.transpose_apply]

theorem designMat_cross (p : Params) {f k : ℕ}
    (sc : Option (ScalerStats (dimP p f))) (b : Batch f k) (pn : Bool) :
    (designMat p sc b pn)ᵀ * targetMat b = cAcc (newPairs p sc b pn) := by
  have h₁ : (preprocessing p sc (b.map Prod.fst) pn).1.length = b.length := by
    rw [preprocessing_length, List.length_map]
  have h₂ : (b.map Prod.snd).length = b.length := List.length_map _ _
  ext i j
  rw [Matrix.mul_apply, cAcc, newPairs, listSum_apply, List.map_map]
  simp only [Function.comp_def, vecMulVec_apply]
  rw [← sum_fin_getD_pair (0 : Fin (dimP p f) → ℝ) (0 : Fin k → ℝ) b.length
      _ _ h₁ h₂ (fun r y => r i * y j)]
  simp [designMat, targetMat, Matrix.transpose_apply]

theorem dotProduct_self_nonneg {d : ℕ} (v : Fin d → ℝ) : 0 ≤ v ⬝ᵥ v :=
  Finset.sum_nonneg fun i _ => mul_self_nonneg (v i)

theorem vecMulVec_quadform {d : ℕ} (r v : Fin d → ℝ) :
    0 ≤ v ⬝ᵥ (vecMulVec r r).mulVec v := by
  have h : (vecMulVec r r).mulVec v = (r ⬝ᵥ v) • r := by
    ext i
    simp [Matrix.mulVec, vecMulVec_apply, dotProduct, Finset.mul_sum, mul_comm,
      mul_left_comm]
  rw [h, dotProduct_smul, smul_eq_mul, dotProduct_comm]
  exact mul_self_nonneg _

theorem gAcc_quadform {d k : ℕ} (R : List (PPair d k)) (v : Fin d → ℝ) :
    0 ≤ v ⬝ᵥ (gAcc R).mulVec v := by
  induction R with
  | nil => simp [gAcc, Matrix.zero_mulVec]
  | cons a R ih =>
      have : gAcc (a :: R) = vecMulVec a.1 a.1 + gAcc R := by
        simp [gAcc, List.sum_cons]
      rw [this, Matrix.add_mulVec, dotProduct_add]
      exact add_nonneg (vecMulVec_quadform a.1 v) ih

/-- The regularised Gram matrix gAcc R + alpha * identity is invertible for
every positive alpha: its quadratic form is positive definite. -/
theorem gAcc_isUnit_det {d k : ℕ} (R : List (PPair d k)) {α : ℝ} (hα : 0 < α) :
    IsUnit (gAcc R + α • (1 : Matrix (Fin d) (Fin d) ℝ)).det := by
  rw [isUnit_iff_ne_zero]
  intro hdet
  obtain ⟨v, hv0, hv⟩ := Matrix.exists_mulVec_eq_zero_iff.mpr hdet
  have hq : v ⬝ᵥ (gAcc R + α • (1 : Matrix (Fin d) (Fin d) ℝ)).mulVec v = 0 := by
    rw [hv, dotProduct_zero]
  rw [Matrix.add_mulVec, dotProduct_add, Matrix.smul_mulVec_assoc,
    Matrix.one_mulVec, dotProduct_smul, smul_eq_mul] at hq
  have h1 : 0 ≤ v ⬝ᵥ (gAcc R).mulVec v := gAcc_quadform R v
  have h2 : 0 < v ⬝ᵥ v := by
    rcases lt_or_eq_of_le (dotProduct_self_nonneg v) with h | h
    · exact h
    · exact absurd (dotProduct_self_eq_zero.mp h.symm) hv0
  nlinarith

/-- The recursive least-squares corrective update started from the exact ridge
solution of the previous accumulators lands on the exact ridge solution of the
updated accumulators. -/
theorem rls_update {d k n : ℕ} (G g : Matrix (Fin d) (Fin d) ℝ)
    (C c : Matrix (Fin d) (Fin k) ℝ) (X : Matrix (Fin n) (Fin d) ℝ)
    (Y : Matrix (Fin n) (Fin k) ℝ) (α : ℝ)
    (hXX : Xᵀ * X = g) (hXY : Xᵀ * Y = c)
    (hA : IsUnit (G + α • (1 : Matrix (Fin d) (Fin d) ℝ)).det)
    (hB : IsUnit (G + g + α • (1 : Matrix (Fin d) (Fin d) ℝ)).det) :
    (G + α • 1)⁻¹ * C + (G + g + α • 1)⁻¹ * (Xᵀ * (Y - X * ((G + α • 1)⁻¹ * C)))
      = (G + g + α • (1 : Matrix (Fin d) (Fin d) ℝ))⁻¹ * (C + c) := by
  set A := G + α • (1 : Matrix (Fin d) (Fin d) ℝ) with hAdef
  set B := G + g + α • (1 : Matrix (Fin d) (Fin d) ℝ) with hBdef
  have hBA : B = A + g := by rw [hAdef, hBdef]; abel
  have hW : Xᵀ * (Y - X * (A⁻¹ * C)) = c - g * (A⁻¹ * C) := by
    rw [Matrix.mul_sub, hXY, ← Matrix.mul_assoc, hXX]
  rw [hW]
  have h1 : B⁻¹ * (B * (A⁻¹ * C)) = A⁻¹ * C := by
    rw [← Matrix.mul_assoc, Matrix.nonsing_inv_mul _ hB, Matrix.one_mul]
  calc A⁻¹ * C + B⁻¹ * (c - g * (A⁻¹ * C))
      = B⁻¹ * (B * (A⁻¹ * C)) + B⁻¹ * (c - g * (A⁻¹ * C)) := by rw [h1]
    _ = B⁻¹ * (B * (A⁻¹ * C) + (c - g * (A⁻¹ * C))) := by rw [Matrix.mul_add]
    _ = B⁻¹ * (A * (A⁻¹ * C) + c) := by
        rw [hBA, Matrix.add_mul]; abel_nf
    _ = B⁻¹ * (C + c) := by
        rw [← Matrix.mul_assoc, Matrix.mul_nonsing_inv _ hA, Matrix.one_mul]

/- Step lemmas: the shape of one partial_fit call from each reachable state
shape, written in terms of the Gram and cross accumulators. -/

theorem partialFit_reset_eq (p : Params) {f k : ℕ} (s : IRState p f k)
    (b : Batch f k) (pn postpone : Bool) :
    partialFit p s b pn true postpone =
      partialFit p ⟨none, none, none, s.scaler⟩ b pn false postpone := rfl

theorem partialFit_fresh (p : Params) {f k : ℕ}
    (sc : Option (ScalerStats (dimP p f))) (b : Batch f k) (pn postpone : Bool) :
    partialFit p ⟨none, none, none, sc⟩ b pn false postpone =
      if postpone then
        ⟨some (gAcc (newPairs p sc b pn)), some (cAcc (newPairs p sc b pn)), none,
          scalerNext p sc (b.map Prod.fst) pn⟩
      else
        ⟨some (gAcc (newPairs p sc b pn)), some (cAcc (newPairs p sc b pn)),
          some ((gAcc (newPairs p sc b pn) +
              p.alpha • (1 : Matrix (Fin (dimP p f)) (Fin (dimP p f)) ℝ))⁻¹ *
            cAcc (newPairs p sc b pn)),
          scalerNext p sc (b.map Prod.fst) pn⟩ := by
  cases postpone <;>
    simp [partialFit, designMat_gram, designMat_cross, scalerNext]

theorem partialFit_noW (p : Params) {f k : ℕ}
    (G : Matrix (Fin (dimP p f)) (Fin (dimP p f)) ℝ)
    (C0 : Matrix (Fin (dimP p f)) (Fin k) ℝ)
    (sc : Option (ScalerStats (dimP p f))) (b : Batch f k) (pn postpone : Bool) :
    partialFit p ⟨some G, some C0, none, sc⟩ b pn false postpone =
      if postpone then
        ⟨some (G + gAcc (newPairs p sc b pn)), some (C0 + cAcc (newPairs p sc b pn)),
          none, scalerNext p sc (b.map Prod.fst) pn⟩
      else
        ⟨some (G + gAcc (newPairs p sc b pn)), some (C0 + cAcc (newPairs p sc b pn)),
          some (((G + gAcc (newPairs p sc b pn)) +
              p.alpha • (1 : Matrix (Fin (dimP p f)) (Fin (dimP p f)) ℝ))⁻¹ *
            (C0 + cAcc (newPairs p sc b pn))),
          scalerNext p sc (b.map Prod.fst) pn⟩ := by
  cases postpone <;>
    simp [partialFit, designMat_gram, designMat_cross, scalerNext]

theorem partialFit_withW (p : Params) {f k : ℕ}
    (G : Matrix (Fin (dimP p f)) (Fin (dimP p f)) ℝ)
    (C0 W : Matrix (Fin (dimP p f)) (Fin k) ℝ)
    (sc : Option (ScalerStats (dimP p f))) (b : Batch f k) (pn postpone : Bool) :
    partialFit p ⟨some G, some C0, some W, sc⟩ b pn false postpone =
      ⟨some (G + gAcc (newPairs p sc b pn)), some (C0 + cAcc (newPairs p sc b pn)),
        some (W + ((G + gAcc (newPairs p sc b pn)) +
            p.alpha • (1 : Matrix (Fin (dimP p f)) (Fin (dimP p f)) ℝ))⁻¹ *
          ((designMat p sc b pn)ᵀ * (targetMat b - designMat p sc b pn * W))),
        scalerNext p sc (b.map Prod.fst) pn⟩ := by
  cases postpone <;>
    simp [partialFit, designMat_gram, designMat_cross, scalerNext]

/-- An eager partial_fit call on a state whose output weights are the exact
ridge solution of its accumulators lands on the exact ridge solution of the
extended accumulators (any postpone flag: the early return is skipped since
the output weights are set). -/
theorem eStep_invariant (p : Params) {f k : ℕ} (hα : 0 < p.alpha)
    (R : List (PPair (dimP p f) k)) (sc : Option (ScalerStats (dimP p f)))
    (b : Batch f k) (pn postpone : Bool) :
    partialFit p ⟨some (gAcc R), some (cAcc R),
        some ((gAcc R + p.alpha • (1 : Matrix (Fin (dimP p f)) (Fin (dimP p f)) ℝ))⁻¹ *
          cAcc R), sc⟩ b pn false postpone
      = ⟨some (gAcc (R ++ newPairs p sc b pn)), some (cAcc (R ++ newPairs p sc b pn)),
          some ((gAcc (R ++ newPairs p sc b pn) +
              p.alpha • (1 : Matrix (Fin (dimP p f)) (Fin (dimP p f)) ℝ))⁻¹ *
            cAcc (R ++ newPairs p sc b pn)),
          scalerNext p sc (b.map Prod.fst) pn⟩ := by
  rw [partialFit_withW, gAcc_append, cAcc_append]
  have hB : IsUnit ((gAcc R + gAcc (newPairs p sc b pn)) +
      p.alpha • (1 : Matrix (Fin (dimP p f)) (Fin (dimP p f)) ℝ)).det := by
    rw [← gAcc_append]; exact gAcc_isUnit_det _ hα
  have := rls_update (gAcc R) (gAcc (newPairs p sc b pn)) (cAcc R)
    (cAcc (newPairs p sc b pn)) (designMat p sc b pn) (targetMat b) p.alpha
    (designMat_gram p sc b pn) (designMat_cross p sc b pn)
    (gAcc_isUnit_det R hα) hB
  rw [← this]

/-- Preprocessed samples of a batch when normalization is disabled: only the
intercept augmentation applies. -/
def pairsOf (p : Params) {f k : ℕ} (b : Batch f k) : List (PPair (dimP p f) k) :=
  b.map fun a => (preRow p a.1, a.2)

theorem pairsOf_append (p : Params) {f k : ℕ} (b c : Batch f k) :
    pairsOf p (b ++ c) = pairsOf p b ++ pairsOf p c := by
  simp [pairsOf]

theorem newPairs_nonorm (p : Params) {f k : ℕ} (hn : p.normalize = false)
    (sc : Option (ScalerStats (dimP p f))) (b : Batch f k) (pn : Bool) :
    newPairs p sc b pn = pairsOf p b := by
  unfold newPairs preprocessing pairsOf
  simp [hn, List.map_map, List.zip_map', Function.comp_def]

theorem scalerNext_nonorm (p : Params) {f : ℕ} (hn : p.normalize = false)
    (sc : Option (ScalerStats (dimP p f))) (X : List (Fin f → ℝ)) (pn : Bool) :
    scalerNext p sc X pn = sc := by
  unfold scalerNext preprocessing
  simp [hn]

/-- With normalization disabled, the eager streaming fold keeps the exact
ridge solution of everything seen so far, with concrete accumulators. -/
theorem foldl_eager_nonorm (p : Params) {f k : ℕ} (hα : 0 < p.alpha)
    (hn : p.normalize = false) :
    ∀ (bs : List (Batch f k)) (R : List (PPair (dimP p f) k))
      (sc : Option (ScalerStats (dimP p f))),
      bs.foldl (fun s b => partialFit p s b true false false)
        ⟨some (gAcc R), some (cAcc R),
          some ((gAcc R + p.alpha • (1 : Matrix (Fin (dimP p f)) (Fin (dimP p f)) ℝ))⁻¹ *
            cAcc R), sc⟩
      = ⟨some (gAcc (R ++ pairsOf p bs.flatten)), some (cAcc (R ++ pairsOf p bs.flatten)),
          some ((gAcc (R ++ pairsOf p bs.flatten) +
              p.alpha • (1 : Matrix (Fin (dimP p f)) (Fin (dimP p f)) ℝ))⁻¹ *
            cAcc (R ++ pairsOf p bs.flatten)), sc⟩ := by
  intro bs
  induction bs with
  | nil => intro R sc; simp [pairsOf]
  | cons b bs ih =>
      intro R sc
      rw [List.foldl_cons]
      have hstep := eStep_invariant p hα R sc b true false
      rw [newPairs_nonorm p hn, scalerNext_nonorm p hn] at hstep
      rw [hstep, ih (R ++ pairsOf p b) sc, List.flatten_cons, pairsOf_append,
        List.append_assoc]

/-- The eager and the postponed streaming folds stay in lockstep: same
accumulators and scaler, with the eager one carrying the exact ridge solution
and the postponed one carrying no output weights. -/
theorem foldl_joint (p : Params) {f k : ℕ} (hα : 0 < p.alpha) :
    ∀ (bs : List (Batch f k)) (R : List (PPair (dimP p f) k))
      (sc : Option (ScalerStats (dimP p f))),
      ∃ R2 sc2,
        bs.foldl (fun s b => partialFit p s b true false false)
          ⟨some (gAcc R), some (cAcc R),
            some ((gAcc R + p.alpha • (1 : Matrix (Fin (dimP p f)) (Fin (dimP p f)) ℝ))⁻¹ *
              cAcc R), sc⟩
          = ⟨some (gAcc R2), some (cAcc R2),
              some ((gAcc R2 + p.alpha • (1 : Matrix (Fin (dimP p f)) (Fin (dimP p f)) ℝ))⁻¹ *
                cAcc R2), sc2⟩ ∧
        bs.foldl (fun s b => partialFit p s b true false true)
          ⟨some (gAcc R), some (cAcc R), none, sc⟩
          = ⟨some (gAcc R2), some (cAcc R2), none, sc2⟩ := by
  intro bs
  induction bs with
  | nil => intro R sc; exact ⟨R, sc, rfl, rfl⟩
  | cons b bs ih =>
      intro R sc
      obtain ⟨R2, sc2, h1, h2⟩ :=
        ih (R ++ newPairs p sc b true) (scalerNext p sc (b.map Prod.fst) true)
      refine ⟨R2, sc2, ?_, ?_⟩
      · rw [List.foldl_cons, eStep_invariant p hα R sc b true false, h1]
      · rw [List.foldl_cons, partialFit_noW, if_pos rfl, ← gAcc_append, ← cAcc_append, h2]

theorem initIR_def (p : Params) (f k : ℕ) :
    initIR p f k = ⟨none, none, none, none⟩ := rfl

theorem newPairs_pnfalse_indep (p : Params) {f k : ℕ}
    (sc sc2 : Option (ScalerStats (dimP p f))) (b : Batch f k) :
    newPairs p sc b false = newPairs p sc2 b false := by
  unfold newPairs preprocessing
  by_cases hn : p.normalize <;> simp [hn]

theorem predictDesign_indep (p : Params) {f : ℕ}
    (sc sc2 : Option (ScalerStats (dimP p f))) (X : List (Fin f → ℝ)) :
    predictDesign p sc X = predictDesign p sc2 X := by
  unfold predictDesign preprocessing
  by_cases hn : p.normalize <;> simp [hn]

theorem mat1_injEq (a b : ℝ) : mat1 a = mat1 b ↔ a = b := by
  constructor
  · intro h; exact congrFun (congrFun h 0) 0
  · intro h; rw [h]

/-- Postponing the inverse on every batch but the last and then solving on the
last batch lands on the same state as eagerly solving on every batch, from any
lockstep starting point. -/
theorem postponed_then_solve (p : Params) {f k : ℕ} (hα : 0 < p.alpha)
    (cs : List (Batch f k)) (hcs : cs ≠ [])
    (R : List (PPair (dimP p f) k)) (sc : Option (ScalerStats (dimP p f))) :
    partialFit p
        (cs.dropLast.foldl (fun s b => partialFit p s b true false true)
          ⟨some (gAcc R), some (cAcc R), none, sc⟩)
        (cs.getLast hcs) true false false
      = cs.foldl (fun s b => partialFit p s b true false false)
          ⟨some (gAcc R), some (cAcc R),
            some ((gAcc R + p.alpha • (1 : Matrix (Fin (dimP p f)) (Fin (dimP p f)) ℝ))⁻¹ *
              cAcc R), sc⟩ := by
  obtain ⟨R2, sc2, h1, h2⟩ := foldl_joint p hα cs.dropLast R sc
  rw [h2]
  conv_rhs => rw [← List.dropLast_append_getLast hcs]
  rw [List.foldl_append, h1, List.foldl_cons, List.foldl_nil,
    eStep_invariant p hα R2 sc2 (cs.getLast hcs) true false,
    partialFit_noW, if_neg (by simp), gAcc_append, cAcc_append]

/-- C3: on an IncrementalRegression whose output weights are already set, an
eager partial_fit updates the accumulator K by the Gram contribution of the
new batch and applies the corrective delta W + P * Xᵀ (Y - X W), where P is
freshly inverted from the updated accumulator plus alpha times the identity on
that very call; no inverse is carried or updated across calls. -/
theorem C3_corrective_delta (p : Params) {f k : ℕ} (s : IRState p f k)
    (b : Batch f k) (pn postpone : Bool)
    (G : Matrix (Fin (dimP p f)) (Fin (dimP p f)) ℝ)
    (W : Matrix (Fin (dimP p f)) (Fin k) ℝ)
    (hK : s.K = some G) (hW : s.output_weights = some W) :
    (partialFit p s b pn false postpone).K
      = some (G + (designMat p s.scaler b pn)ᵀ * designMat p s.scaler b pn) ∧
    (partialFit p s b pn false postpone).output_weights
      = some (W + ((G + (designMat p s.scaler b pn)ᵀ * designMat p s.scaler b pn) +
            p.alpha • (1 : Matrix (Fin (dimP p f)) (Fin (dimP p f)) ℝ))⁻¹ *
          ((designMat p s.scaler b pn)ᵀ *
            (targetMat b - designMat p s.scaler b pn * W))) := by
  rcases s with ⟨K0, C0, W0, sc⟩
  simp only at hK hW
  subst hK; subst hW
  cases C0 <;> cases postpone <;> simp [partialFit]

/-- C3 witness: the corrective-delta theorem applied at a concrete fitted
state and batch. -/
theorem C3_corrective_delta_witness :
    (partialFit pPlain
        (⟨some (mat1 3), some (mat1 2), some (mat1 1), none⟩ : IRState pPlain 1 1)
        bUnit true false false).K
      = some (mat1 3 + (designMat pPlain none bUnit true)ᵀ *
          designMat pPlain none bUnit true) ∧
    (partialFit pPlain
        (⟨some (mat1 3), some (mat1 2), some (mat1 1), none⟩ : IRState pPlain 1 1)
        bUnit true false false).output_weights
      = some (mat1 1 + ((mat1 3 + (designMat pPlain none bUnit true)ᵀ *
            designMat pPlain none bUnit true) +
            pPlain.alpha • (1 : Matrix (Fin (dimP pPlain 1)) (Fin (dimP pPlain 1)) ℝ))⁻¹ *
          ((designMat pPlain none bUnit true)ᵀ *
            (targetMat bUnit - designMat pPlain none bUnit true * mat1 1))) :=
  C3_corrective_delta pPlain
    (⟨some (mat1 3), some (mat1 2), some (mat1 1), none⟩ : IRState pPlain 1 1)
    bUnit true false (mat1 3) (mat1 1) rfl rfl

/-- C6: for both variants, predict raises the not-fitted error exactly while
no solve has set the output weights, for every input; once the output weights
are set, predict returns the preprocessed input multiplied by W. -/
theorem C6_predict_guard (p : Params) {f k : ℕ} :
    (∀ (s : IRState p f k) (X : List (Fin f → ℝ)), s.output_weights = none →
      (predict p s X).1 = Except.error PyErr.notFitted) ∧
    (∀ (s : IRState p f k) (X : List (Fin f → ℝ))
        (W : Matrix (Fin (dimP p f)) (Fin k) ℝ), s.output_weights = some W →
      (predict p s X).1 = Except.ok (predictDesign p s.scaler X * W)) ∧
    (∀ (s : FState p f k) (X : List (Fin f → ℝ)), s.output_weights = none →
      (fastPredict p s X).1 = Except.error PyErr.notFitted) ∧
    (∀ (s : FState p f k) (X : List (Fin f → ℝ))
        (W : Matrix (Fin (dimP p f)) (Fin k) ℝ), s.output_weights = some W →
      (fastPredict p s X).1 = Except.ok (predictDesign p s.scaler X * W)) := by
  refine ⟨?_, ?_, ?_, ?_⟩
  · intro s X h; simp [predict, h]
  · intro s X W h; simp [predict, h]
  · intro s X h; simp [fastPredict, h]
  · intro s X W h; simp [fastPredict, h]

/-- C6 witness: a fresh instance raises the not-fitted error on a concrete
input, and a fitted instance returns the design times the weights. -/
theorem C6_predict_guard_witness :
    (predict pPlain (initIR pPlain 1 1) [fun _ => 1]).1
      = Except.error PyErr.notFitted ∧
    (predict pPlain (⟨none, none, some (mat1 1), none⟩ : IRState pPlain 1 1)
        [fun _ => 1]).1
      = Except.ok (predictDesign pPlain none [fun _ => 1] * mat1 1) ∧
    (fastPredict pPlain (FState.init pPlain 1 1) [fun _ => 1]).1
      = Except.error PyErr.notFitted :=
  ⟨(C6_predict_guard pPlain).1 _ _ rfl,
   (C6_predict_guard pPlain).2.1 _ _ (mat1 1) rfl,
   (C6_predict_guard pPlain).2.2.1 _ _ rfl⟩

/-- C9: freshly constructed regressors expose empty sentinels through coef_
and intercept_ (both variants); on a state with output weights set and
fit_intercept enabled, coef_ is the transpose of W with the intercept row
stripped and intercept_ is the last row of W transposed. -/
theorem C9_accessors (p : Params) {f k : ℕ} :
    (coefOpt p (initIR p f k) = none ∧ interceptOpt p (initIR p f k) = none ∧
     fastCoefOpt p (FState.init p f k) = none ∧
     fastInterceptOpt p (FState.init p f k) = none) ∧
    (∀ (s : IRState p f k) (W : Matrix (Fin (dimP p f)) (Fin k) ℝ)
        (hfi : p.fit_intercept = true), s.output_weights = some W →
      coefOpt p s = some (Matrix.of fun i (j : Fin f) =>
          W ⟨j, lt_of_lt_of_le j.isLt (f_le_dimP p f)⟩ i) ∧
      interceptOpt p s
        = some (fun i => W ⟨f, by simp only [dimP, hfi]; omega⟩ i)) ∧
    (∀ (s : FState p f k) (W : Matrix (Fin (dimP p f)) (Fin k) ℝ)
        (hfi : p.fit_intercept = true), s.output_weights = some W →
      fastCoefOpt p s = some (Matrix.of fun i (j : Fin f) =>
          W ⟨j, lt_of_lt_of_le j.isLt (f_le_dimP p f)⟩ i) ∧
      fastInterceptOpt p s
        = some (fun i => W ⟨f, by simp only [dimP, hfi]; omega⟩ i)) := by
  refine ⟨⟨rfl, rfl, rfl, rfl⟩, ?_, ?_⟩
  · intro s W hfi hW
    constructor
    · simp [coefOpt, coefFromW, hW]
    · simp [interceptOpt, interceptFromW, hW, hfi]
  · intro s W hfi hW
    constructor
    · simp [fastCoefOpt, coefFromW, hW]
    · simp [fastInterceptOpt, interceptFromW, hW, hfi]

/-- C9 witness: the accessor formulas at a concrete fitted two-dimensional
weight matrix with an intercept. -/
theorem C9_accessors_witness :
    coefOpt pInt (⟨none, none, some W7, none⟩ : IRState pInt 1 1)
      = some (Matrix.of fun i (j : Fin 1) =>
          W7 ⟨j, lt_of_lt_of_le j.isLt (f_le_dimP pInt 1)⟩ i) ∧
    interceptOpt pInt (⟨none, none, some W7, none⟩ : IRState pInt 1 1)
      = some (fun i => W7 ⟨1, by simp only [dimP]; omega⟩ i) :=
  (C9_accessors pInt).2.1 (⟨none, none, some W7, none⟩ : IRState pInt 1 1) W7 rfl rfl

/-- C10: the solve path of FastIncrementalRegression reads _n_samples, which
no constructor or method ever assigns: partial_fit preserves the attribute,
the fresh instance has it unset, and every solving call (update_output_weights
true, in particular every fit) raises AttributeError for every input. -/
theorem C10_n_samples_never_assigned (p : Params) {f k : ℕ} :
    (∀ (s : FState p f k) (b : Batch f k) (pn v uw fz : Bool),
        ((fastPartialFit p s b pn v uw fz).1).n_samples = s.n_samples) ∧
    (FState.init p f k).n_samples = none ∧
    (∀ (b : Batch f k) (pn v fz : Bool),
        (fastPartialFit p (FState.init p f k) b pn v true fz).2
          = some PyErr.attributeError) ∧
    (∀ b : Batch f k, (fastFit p (FState.init p f k) b).2
        = some PyErr.attributeError) := by
  refine ⟨?_, rfl, ?_, ?_⟩
  · intro s b pn v uw fz
    rcases s with ⟨xTx, xTy, ow, ns, sc⟩
    cases uw <;> cases fz <;> cases ns <;> simp [fastPartialFit]
  · intro b pn v fz; rfl
  · intro b; rfl

/-- C2: the FastIncrementalRegression solve is written with the regularizer
alpha * n scaled by the sample-count attribute, but that attribute is never
assigned, so the concrete fit below raises AttributeError instead of
completing the documented solve; the running variant solves with the
regularizer alpha times the identity, independent of the sample count. -/
theorem C2_solve_regularizers :
    (fastFit pPlain (FState.init pPlain 1 1) bUnit).2 = some PyErr.attributeError ∧
    (∀ (p : Params) (f k : ℕ) (s : IRState p f k) (b : Batch f k) (pn : Bool)
        (G : Matrix (Fin (dimP p f)) (Fin (dimP p f)) ℝ)
        (C0 : Matrix (Fin (dimP p f)) (Fin k) ℝ),
        s.K = some G → s.xTy = some C0 → s.output_weights = none →
        (partialFit p s b pn false false).output_weights
          = some (((G + (designMat p s.scaler b pn)ᵀ * designMat p s.scaler b pn) +
              p.alpha • (1 : Matrix (Fin (dimP p f)) (Fin (dimP p f)) ℝ))⁻¹ *
            (C0 + (designMat p s.scaler b pn)ᵀ * targetMat b))) := by
  constructor
  · rfl
  · intro p f k s b pn G C0 hK hC hW
    rcases s with ⟨K0, C1, W0, sc⟩
    simp only at hK hC hW
    subst hK; subst hC; subst hW
    simp [partialFit]

/-- C2 witness: the running-variant solve formula applied at a concrete state
with accumulators set and output weights unset. -/
theorem C2_solve_regularizers_witness :
    (partialFit pPlain
        (⟨some (mat1 3), some (mat1 2), none, none⟩ : IRState pPlain 1 1)
        bUnit true false false).output_weights
      = some (((mat1 3 + (designMat pPlain none bUnit true)ᵀ *
            designMat pPlain none bUnit true) +
          pPlain.alpha • (1 : Matrix (Fin (dimP pPlain 1)) (Fin (dimP pPlain 1)) ℝ))⁻¹ *
        (mat1 2 + (designMat pPlain none bUnit true)ᵀ * targetMat bUnit)) :=
  C2_solve_regularizers.2 pPlain 1 1
    (⟨some (mat1 3), some (mat1 2), none, none⟩ : IRState pPlain 1 1)
    bUnit true (mat1 3) (mat1 2) rfl rfl rfl

/-- C7 (amended): predict leaves K, xTy and the output weights unchanged and
repeated predict calls with the same input return identical output; when
normalize is disabled the whole state is unchanged, but when normalize is
enabled predict refits the scaler on its input (scaler.fit_transform), so the
learned scaler statistics are replaced rather than left untouched. -/
theorem C7_predict_effects (p : Params) {f k : ℕ} (s : IRState p f k)
    (X : List (Fin f → ℝ)) :
    (predict p s X).2.K = s.K ∧ (predict p s X).2.xTy = s.xTy ∧
    (predict p s X).2.output_weights = s.output_weights ∧
    (p.normalize = false → (predict p s X).2 = s) ∧
    (predict p (predict p s X).2 X).1 = (predict p s X).1 := by
  rcases s with ⟨K0, C0, W0, sc⟩
  cases W0 with
  | none => exact ⟨rfl, rfl, rfl, fun _ => rfl, rfl⟩
  | some W =>
      refine ⟨rfl, rfl, rfl, ?_, ?_⟩
      · intro hn
        simp [predict, scalerNext_nonorm p hn]
      · simp only [predict]
        rw [predictDesign_indep p (scalerNext p sc X false) sc X]

/-- C7 witness: with normalization disabled, predict changes nothing and a
repeated predict returns the identical result. -/
theorem C7_predict_effects_witness :
    ((predict pPlain (⟨none, none, some (mat1 1), none⟩ : IRState pPlain 1 1)
        [fun _ => 3]).2
      = (⟨none, none, some (mat1 1), none⟩ : IRState pPlain 1 1)) ∧
    (predict pPlain
        ((predict pPlain (⟨none, none, some (mat1 1), none⟩ : IRState pPlain 1 1)
          [fun _ => 3]).2) [fun _ => 3]).1
      = (predict pPlain (⟨none, none, some (mat1 1), none⟩ : IRState pPlain 1 1)
          [fun _ => 3]).1 :=
  ⟨(C7_predict_effects pPlain _ _).2.2.2.1 rfl,
   (C7_predict_effects pPlain _ _).2.2.2.2⟩

/-- C7 counterexample: with normalization enabled, a predict call replaces the
learned scaler statistics by statistics refit on the predict input, refuting
the claim that predict leaves the scaler state unchanged. -/
theorem C7_counterexample :
    (predict pNorm (⟨none, none, some (mat1 1),
        some ⟨2, fun _ => 0, fun _ => 2⟩⟩ : IRState pNorm 1 1)
      [fun _ => 3, fun _ => 5]).2.scaler
      ≠ some (⟨2, fun _ => 0, fun _ => 2⟩ : ScalerStats (dimP pNorm 1)) := by
  have hres : (predict pNorm (⟨none, none, some (mat1 1),
      some ⟨2, fun _ => 0, fun _ => 2⟩⟩ : IRState pNorm 1 1)
      [fun _ => 3, fun _ => 5]).2.scaler
      = some (batchStats
          (([fun _ => 3, fun _ => 5] : List (Fin 1 → ℝ)).map (preRow pNorm))) := by
    simp [predict, scalerNext, preprocessing, pNorm]
  rw [hres]
  intro h
  have h1 := Option.some.inj h
  have h2 := congrFun (congrArg ScalerStats.sum h1) 0
  simp [batchStats, preRow, pNorm] at h2
  norm_num at h2

/-- C5 (amended): IncrementalRegression.fit equals reset-and-partial_fit with
eager solve by definition, and its fitted fields K, xTy and output weights
agree with a fit on a fresh instance regardless of prior state;
FastIncrementalRegression.fit performs no reset: with the sample-count
attribute unset (as on every constructible instance), prior accumulated
statistics persist into the call, which accumulates on top of them before its
solve raises. -/
theorem C5_fit_resets (p : Params) {f k : ℕ} :
    (∀ (s : IRState p f k) (b : Batch f k),
        fit p s b = partialFit p ⟨none, none, none, s.scaler⟩ b false false false ∧
        (fit p s b).K = (fit p (initIR p f k) b).K ∧
        (fit p s b).xTy = (fit p (initIR p f k) b).xTy ∧
        (fit p s b).output_weights = (fit p (initIR p f k) b).output_weights) ∧
    (∀ (s : FState p f k) (b : Batch f k)
        (A : Matrix (Fin (dimP p f)) (Fin (dimP p f)) ℝ),
        s.xTx = some A → s.n_samples = none →
        (fastFit p s b).1.xTx
          = some (A + (designMat p s.scaler b false)ᵀ *
              designMat p s.scaler b false)) := by
  constructor
  · intro s b
    have h1 : fit p s b = partialFit p ⟨none, none, none, s.scaler⟩ b false false false :=
      rfl
    have h2 : fit p (initIR p f k) b
        = partialFit p ⟨none, none, none, none⟩ b false false false := rfl
    have e1 := partialFit_fresh (p := p) s.scaler b false false
    have e2 := partialFit_fresh (p := p) none b false false
    rw [if_neg (by simp)] at e1 e2
    have hnp : newPairs p s.scaler b false = newPairs p none b false :=
      newPairs_pnfalse_indep p _ _ b
    refine ⟨rfl, ?_, ?_, ?_⟩ <;> rw [h1, h2, e1, e2, hnp]
  · intro s b A hx hn
    rcases s with ⟨xTx, xTy, ow, ns, sc⟩
    simp only at hx hn
    subst hx; subst hn
    simp [fastFit, fastPartialFit]

/-- C5 witness: the reset behaviour of fit instantiated at concrete states
with prior accumulations. -/
theorem C5_fit_resets_witness :
    (fit pPlain (⟨some (mat1 5), some (mat1 4), some (mat1 3), none⟩ :
          IRState pPlain 1 1) bUnit
        = partialFit pPlain ⟨none, none, none, none⟩ bUnit false false false ∧
      (fit pPlain (⟨some (mat1 5), some (mat1 4), some (mat1 3), none⟩ :
          IRState pPlain 1 1) bUnit).K
        = (fit pPlain (initIR pPlain 1 1) bUnit).K ∧
      (fit pPlain (⟨some (mat1 5), some (mat1 4), some (mat1 3), none⟩ :
          IRState pPlain 1 1) bUnit).xTy
        = (fit pPlain (initIR pPlain 1 1) bUnit).xTy ∧
      (fit pPlain (⟨some (mat1 5), some (mat1 4), some (mat1 3), none⟩ :
          IRState pPlain 1 1) bUnit).output_weights
        = (fit pPlain (initIR pPlain 1 1) bUnit).output_weights) ∧
    (fastFit pPlain (⟨some (mat1 5), none, none, none, none⟩ : FState pPlain 1 1)
        bUnit).1.xTx
      = some (mat1 5 + (designMat pPlain none bUnit false)ᵀ *
          designMat pPlain none bUnit false) :=
  ⟨(C5_fit_resets pPlain).1
      (⟨some (mat1 5), some (mat1 4), some (mat1 3), none⟩ : IRState pPlain 1 1) bUnit,
   (C5_fit_resets pPlain).2
      (⟨some (mat1 5), none, none, none, none⟩ : FState pPlain 1 1) bUnit
      (mat1 5) rfl rfl⟩

theorem designMat_pPlain_bUnit (pn : Bool) : designMat pPlain none bUnit pn = mat1 1 := by
  ext i j
  fin_cases i; fin_cases j
  simp [designMat, preprocessing, pPlain, bUnit, preRow, mat1]

/-- C5 counterexample: FastIncrementalRegression.fit does not reset prior
accumulated state: after one postponed partial_fit on the same data, fit keeps
accumulating, so the accumulator after fit differs from the one after a fit on
a fresh instance — the result of fit depends on earlier partial_fit calls. -/
theorem C5_counterexample :
    (fastFit pPlain
        (fastPartialFit pPlain (FState.init pPlain 1 1) bUnit true true false false).1
        bUnit).1.xTx
      ≠ (fastFit pPlain (FState.init pPlain 1 1) bUnit).1.xTx := by
  have hsc : scalerNext pPlain (none : Option (ScalerStats (dimP pPlain 1)))
      (bUnit.map Prod.fst) true = none := scalerNext_nonorm pPlain rfl none _ true
  have hL : (fastFit pPlain
      (fastPartialFit pPlain (FState.init pPlain 1 1) bUnit true true false false).1
      bUnit).1.xTx
      = some ((designMat pPlain none bUnit true)ᵀ * designMat pPlain none bUnit true +
          (designMat pPlain (scalerNext pPlain none (bUnit.map Prod.fst) true)
              bUnit false)ᵀ *
            designMat pPlain (scalerNext pPlain none (bUnit.map Prod.fst) true)
              bUnit false) := rfl
  have hR : (fastFit pPlain (FState.init pPlain 1 1) bUnit).1.xTx
      = some ((designMat pPlain none bUnit false)ᵀ *
          designMat pPlain none bUnit false) := rfl
  rw [hL, hR, hsc, designMat_pPlain_bUnit, designMat_pPlain_bUnit,
    mat1_transpose, mat1_mul, mat1_add]
  intro h
  have h2 := (mat1_injEq _ _).mp (Option.some.inj h)
  norm_num at h2

/-- C4: running partial_fit with postpone_inverse on every batch but the last
and then performing the final solving call yields the same state, in
particular the same output weights, as running every batch in eager mode. -/
theorem C4_deferred_inversion_equiv (p : Params) {f k : ℕ} (hα : 0 < p.alpha)
    (bs : List (Batch f k)) (hbs : bs ≠ [])
    (hne : ∀ c ∈ bs, c ≠ ([] : Batch f k)) :
    partialFit p
        (bs.dropLast.foldl (fun s b => partialFit p s b true false true)
          (initIR p f k))
        (bs.getLast hbs) true false false
      = bs.foldl (fun s b => partialFit p s b true false false) (initIR p f k) := by
  cases bs with
  | nil => exact absurd rfl hbs
  | cons b bs =>
      cases bs with
      | nil => rfl
      | cons b2 bs2 =>
          have hcs : (b2 :: bs2) ≠ [] := by simp
          rw [show (b :: b2 :: bs2).dropLast = b :: (b2 :: bs2).dropLast from rfl,
            List.foldl_cons, List.foldl_cons, List.getLast_cons hcs, initIR_def]
          have e1 := partialFit_fresh (p := p) none b true true
          rw [if_pos rfl] at e1
          have e2 := partialFit_fresh (p := p) none b true false
          rw [if_neg (by simp)] at e2
          rw [e1, e2]
          exact postponed_then_solve p hα (b2 :: bs2) hcs (newPairs p none b true)
            (scalerNext p none (b.map Prod.fst) true)

/-- C4 witness: the deferred-inversion equivalence at a concrete two-batch
split. -/
theorem C4_deferred_inversion_equiv_witness :
    partialFit pPlain
        (([bUnit, bB].dropLast).foldl
          (fun s b => partialFit pPlain s b true false true) (initIR pPlain 1 1))
        ([bUnit, bB].getLast (by simp)) true false false
      = [bUnit, bB].foldl (fun s b => partialFit pPlain s b true false false)
          (initIR pPlain 1 1) :=
  C4_deferred_inversion_equiv pPlain (by norm_num) [bUnit, bB] (by simp) (by simp)

/-- C1 (amended): with normalization disabled, for every dataset and every
split of it into contiguous nonempty batches, the sequence of eager
partial_fit calls on a fresh instance and a single fit of the whole dataset on
a fresh instance produce equal coef_ and intercept_; with normalization
enabled the two runs normalize with different statistics and the property
fails (see the counterexample). -/
theorem C1_batch_streaming_equiv (p : Params) {f k : ℕ} (hα : 0 < p.alpha)
    (hn : p.normalize = false) (bs : List (Batch f k)) (hbs : bs ≠ [])
    (hne : ∀ c ∈ bs, c ≠ ([] : Batch f k)) :
    coefOpt p (bs.foldl (fun s b => partialFit p s b true false false) (initIR p f k))
      = coefOpt p (fit p (initIR p f k) bs.flatten) ∧
    interceptOpt p (bs.foldl (fun s b => partialFit p s b true false false)
        (initIR p f k))
      = interceptOpt p (fit p (initIR p f k) bs.flatten) := by
  have hmain : bs.foldl (fun s b => partialFit p s b true false false) (initIR p f k)
      = fit p (initIR p f k) bs.flatten := by
    cases bs with
    | nil => exact absurd rfl hbs
    | cons b bs =>
        rw [initIR_def, List.foldl_cons]
        have e2 := partialFit_fresh (p := p) none b true false
        rw [if_neg (by simp), newPairs_nonorm p hn, scalerNext_nonorm p hn] at e2
        rw [e2, foldl_eager_nonorm p hα hn bs (pairsOf p b) none]
        have e3 := partialFit_fresh (p := p) none (b :: bs).flatten false false
        rw [if_neg (by simp), newPairs_nonorm p hn, scalerNext_nonorm p hn] at e3
        show _ = partialFit p ⟨none, none, none, none⟩ (b :: bs).flatten false false false
        rw [e3, List.flatten_cons, pairsOf_append]
  exact ⟨by rw [hmain], by rw [hmain]⟩

/-- C1 witness: the batch/streaming equivalence at a concrete two-batch
split without normalization. -/
theorem C1_batch_streaming_equiv_witness :
    coefOpt pPlain ([bUnit, bB].foldl
        (fun s b => partialFit pPlain s b true false false) (initIR pPlain 1 1))
      = coefOpt pPlain (fit pPlain (initIR pPlain 1 1) [bUnit, bB].flatten) ∧
    interceptOpt pPlain ([bUnit, bB].foldl
        (fun s b => partialFit pPlain s b true false false) (initIR pPlain 1 1))
      = interceptOpt pPlain (fit pPlain (initIR pPlain 1 1) [bUnit, bB].flatten) :=
  C1_batch_streaming_equiv pPlain (by norm_num) rfl [bUnit, bB] (by simp) (by simp)

theorem C1aux_alpha :
    pNorm.alpha • (1 : Matrix (Fin (dimP pNorm 1)) (Fin (dimP pNorm 1)) ℝ) = mat1 1 := by
  have h1 : (1 : Matrix (Fin (dimP pNorm 1)) (Fin (dimP pNorm 1)) ℝ) = mat1 1 := one_mat1
  rw [h1, mat1_smul, mat1_injEq]
  norm_num [pNorm]

theorem C1aux_G1 : gAcc (newPairs pNorm none (bA : Batch 1 1) true) = mat1 0 := by
  rw [eq_mat1 (gAcc (newPairs pNorm none (bA : Batch 1 1) true)), mat1_injEq]
  norm_num [gAcc_cons, gAcc_nil, newPairs, preprocessing, pNorm, bA, batchStats,
    ScalerStats.transform, ScalerStats.mean, ScalerStats.variance, scaleOf, preRow,
    vecMulVec_apply, Matrix.add_apply, Matrix.zero_apply]

theorem C1aux_C1 : cAcc (newPairs pNorm none (bA : Batch 1 1) true) = mat1 0 := by
  rw [eq_mat1 (cAcc (newPairs pNorm none (bA : Batch 1 1) true)), mat1_injEq]
  norm_num [cAcc_cons, cAcc_nil, newPairs, preprocessing, pNorm, bA, batchStats,
    ScalerStats.transform, ScalerStats.mean, ScalerStats.variance, scaleOf, preRow,
    vecMulVec_apply, Matrix.add_apply, Matrix.zero_apply]

theorem C1aux_G2 :
    gAcc (newPairs pNorm (scalerNext pNorm none ((bA : Batch 1 1).map Prod.fst) true)
      (bB : Batch 1 1) true) = mat1 1 := by
  rw [eq_mat1 (gAcc (newPairs pNorm
    (scalerNext pNorm none ((bA : Batch 1 1).map Prod.fst) true) (bB : Batch 1 1) true)),
    mat1_injEq]
  norm_num [gAcc_cons, gAcc_nil, newPairs, preprocessing, scalerNext, pNorm, bA, bB,
    batchStats, combineStats, ScalerStats.transform, ScalerStats.mean,
    ScalerStats.variance, scaleOf, preRow, vecMulVec_apply, Matrix.add_apply,
    Matrix.zero_apply, Real.sqrt_one]

theorem C1aux_D2 :
    designMat pNorm (scalerNext pNorm none ((bA : Batch 1 1).map Prod.fst) true)
      (bB : Batch 1 1) true = mat1 1 := by
  rw [eq_mat1 (designMat pNorm
    (scalerNext pNorm none ((bA : Batch 1 1).map Prod.fst) true) (bB : Batch 1 1) true),
    mat1_injEq]
  norm_num [designMat, preprocessing, scalerNext, pNorm, bA, bB, batchStats,
    combineStats, ScalerStats.transform, ScalerStats.mean, ScalerStats.variance,
    scaleOf, preRow, Real.sqrt_one]

theorem C1aux_T2 : targetMat (bB : Batch 1 1) = mat1 2 := by
  rw [eq_mat1 (targetMat (bB : Batch 1 1)), mat1_injEq]
  norm_num [targetMat, bB]

theorem C1aux_Gf :
    gAcc (newPairs pNorm none ([bA, bB] : List (Batch 1 1)).flatten false) = mat1 2 := by
  rw [eq_mat1 (gAcc (newPairs pNorm none ([bA, bB] : List (Batch 1 1)).flatten false)),
    mat1_injEq]
  norm_num [gAcc_cons, gAcc_nil, newPairs, preprocessing, pNorm, bA, bB, batchStats,
    ScalerStats.transform, ScalerStats.mean, ScalerStats.variance, scaleOf, preRow,
    vecMulVec_apply, Matrix.add_apply, Matrix.zero_apply, Real.sqrt_one]

theorem C1aux_Cf :
    cAcc (newPairs pNorm none ([bA, bB] : List (Batch 1 1)).flatten false) = mat1 2 := by
  rw [eq_mat1 (cAcc (newPairs pNorm none ([bA, bB] : List (Batch 1 1)).flatten false)),
    mat1_injEq]
  norm_num [cAcc_cons, cAcc_nil, newPairs, preprocessing, pNorm, bA, bB, batchStats,
    ScalerStats.transform, ScalerStats.mean, ScalerStats.variance, scaleOf, preRow,
    vecMulVec_apply, Matrix.add_apply, Matrix.zero_apply, Real.sqrt_one]

/-- C1 counterexample: with normalization enabled, streaming the dataset in
two eager batches and fitting the whole dataset at once disagree, because the
streaming run normalizes each batch with the running statistics while fit
normalizes with the full-batch statistics; the claimed equality of coef_ and
intercept_ fails at this concrete instance. -/
theorem C1_counterexample :
    ¬ (coefOpt pNorm ([bA, bB].foldl
          (fun s b => partialFit pNorm s b true false false) (initIR pNorm 1 1))
        = coefOpt pNorm (fit pNorm (initIR pNorm 1 1) [bA, bB].flatten) ∧
       interceptOpt pNorm ([bA, bB].foldl
          (fun s b => partialFit pNorm s b true false false) (initIR pNorm 1 1))
        = interceptOpt pNorm (fit pNorm (initIR pNorm 1 1) [bA, bB].flatten)) := by
  have e1 := partialFit_fresh (p := pNorm) none bA true false
  rw [if_neg (by simp), C1aux_G1, C1aux_C1, C1aux_alpha, mat1_add, mat1_inv,
    mat1_mul] at e1
  norm_num at e1
  have e2 := partialFit_withW (p := pNorm) (mat1 0) (mat1 0) (mat1 0)
    (scalerNext pNorm none ((bA : Batch 1 1).map Prod.fst) true) bB true false
  rw [C1aux_G2, C1aux_D2, C1aux_T2, C1aux_alpha, mat1_transpose] at e2
  rw [show mat1 0 + mat1 1 = mat1 1 by rw [mat1_add]; norm_num] at e2
  rw [show mat1 1 + mat1 1 = mat1 2 by rw [mat1_add]; norm_num] at e2
  rw [mat1_inv, mat1_mul, mat1_sub, mat1_mul, mat1_mul] at e2
  norm_num at e2
  rw [mat1_add] at e2
  norm_num at e2
  have hs : ([bA, bB].foldl (fun s b => partialFit pNorm s b true false false)
      (initIR pNorm 1 1)).output_weights = some (mat1 1) := by
    rw [show [bA, bB].foldl (fun s b => partialFit pNorm s b true false false)
          (initIR pNorm 1 1)
        = partialFit pNorm (partialFit pNorm (initIR pNorm 1 1) bA true false false)
            bB true false false from rfl, initIR_def, e1, e2]
  have e3 := partialFit_fresh (p := pNorm) none ([bA, bB] : List (Batch 1 1)).flatten
    false false
  rw [if_neg (by simp), C1aux_Gf, C1aux_Cf, C1aux_alpha, mat1_add, mat1_inv,
    mat1_mul] at e3
  have hf : (fit pNorm (initIR pNorm 1 1) [bA, bB].flatten).output_weights
      = some (mat1 ((2 + 1)⁻¹ * 2)) := by
    rw [show fit pNorm (initIR pNorm 1 1) [bA, bB].flatten
        = partialFit pNorm ⟨none, none, none, none⟩ [bA, bB].flatten false false false
        from rfl, e3]
  intro hcl
  obtain ⟨hc, _⟩ := hcl
  simp only [coefOpt, coefFromW, hs, hf, Option.map_some'] at hc
  have hentry := congrFun (congrFun (Option.some.inj hc) 0) 0
  simp only [Matrix.of_apply, mat1] at hentry
  norm_num at hentry

/-- C8 (amended): with validation on, a batch whose X and y sample counts
disagree, or which is empty, raises a validation error before any state
mutation; a feature-count change is not itself validated: when the new
preprocessed dimension is neither the stored accumulator dimension nor one,
the in-place accumulator update raises a shape error with K and xTy unchanged,
but a broadcast-compatible change (preprocessed dimension one) mutates K and
xTy silently without any error (see the counterexample). -/
theorem C8_shape_validation :
    (∀ (alpha : ℚ) (fi : Bool) (s : Dyn.DynState) (X Y : Dyn.DMat) (r pi2 : Bool),
        X.1.1 ≠ Y.1.1 →
        Dyn.dynPartialFit alpha fi s X Y r true pi2 = (s, some PyErr.valueError)) ∧
    (∀ (alpha : ℚ) (fi : Bool) (s : Dyn.DynState) (K0 : Dyn.DMat) (X Y : Dyn.DMat)
        (pi2 : Bool), s.K = some K0 →
        X.1.1 = Y.1.1 → 0 < X.1.1 → 0 < X.1.2 →
        (Dyn.dynPre fi X).1.2 ≠ K0.1.1 → (Dyn.dynPre fi X).1.2 ≠ 1 →
        Dyn.dynPartialFit alpha fi s X Y false true pi2
          = (s, some PyErr.valueError)) := by
  constructor
  · intro alpha fi s X Y r pi2 h
    have hb : (X.1.1 != Y.1.1 || X.1.1 == 0 || X.1.2 == 0) = true := by
      simp [bne_iff_ne, h]
    simp [Dyn.dynPartialFit, hb]
  · intro alpha fi s K0 X Y pi2 hK hXY hn hf hd1 hd2
    have h1 : X.1.1 ≠ 0 := by omega
    have h2 : X.1.2 ≠ 0 := by omega
    have h3 : Y.1.1 ≠ 0 := by omega
    have hb : (X.1.1 != Y.1.1 || X.1.1 == 0 || X.1.2 == 0) = false := by
      simp [bne_iff_ne, hXY, h1, h2, h3]
    have hia : Dyn.iadd K0 ⟨((Dyn.dynPre fi X).1.2, (Dyn.dynPre fi X).1.2),
        (Dyn.dynPre fi X).2ᵀ * (Dyn.dynPre fi X).2⟩ = none := by
      unfold Dyn.iadd
      rw [if_neg]
      simp [hd1, hd2]
    simp [Dyn.dynPartialFit, hb, hK, hia]

/-- C8 witness: a sample-count mismatch and a non-broadcastable feature-count
change both return the prior state together with a validation error. -/
theorem C8_shape_validation_witness :
    Dyn.dynPartialFit 1 false Dyn.dynInit ⟨(1, 1), !![1]⟩ ⟨(2, 1), !![1; 1]⟩
        false true false
      = (Dyn.dynInit, some PyErr.valueError) ∧
    Dyn.dynPartialFit 1 false ⟨some ⟨(2, 2), !![1, 0; 0, 1]⟩, none, none⟩
        ⟨(1, 3), !![1, 1, 1]⟩ ⟨(1, 1), !![1]⟩ false true false
      = (⟨some ⟨(2, 2), !![1, 0; 0, 1]⟩, none, none⟩, some PyErr.valueError) :=
  ⟨C8_shape_validation.1 1 false Dyn.dynInit ⟨(1, 1), !![1]⟩ ⟨(2, 1), !![1; 1]⟩
      false false (by decide),
   C8_shape_validation.2 1 false ⟨some ⟨(2, 2), !![1, 0; 0, 1]⟩, none, none⟩
      ⟨(2, 2), !![1, 0; 0, 1]⟩ ⟨(1, 3), !![1, 1, 1]⟩ ⟨(1, 1), !![1]⟩ false rfl rfl
      (by decide) (by decide) (by decide) (by decide)⟩

/-- C8 counterexample: a second batch with one feature after a two-feature
start (fit_intercept disabled) is not rejected: the call returns no error and
the accumulator K is silently mutated by numpy broadcasting, refuting the
claim that such a call raises and leaves the accumulators unchanged. -/
theorem C8_counterexample :
    (Dyn.dynPartialFit 1 false
        (Dyn.dynPartialFit 1 false Dyn.dynInit ⟨(1, 2), !![1, 2]⟩
          ⟨(1, 1), !![1]⟩ false true true).1
        ⟨(1, 1), !![3]⟩ ⟨(1, 1), !![5]⟩ false true true).2 = none ∧
    (Dyn.dynPartialFit 1 false
        (Dyn.dynPartialFit 1 false Dyn.dynInit ⟨(1, 2), !![1, 2]⟩
          ⟨(1, 1), !![1]⟩ false true true).1
        ⟨(1, 1), !![3]⟩ ⟨(1, 1), !![5]⟩ false true true).1.K
      ≠ (Dyn.dynPartialFit 1 false Dyn.dynInit ⟨(1, 2), !![1, 2]⟩
          ⟨(1, 1), !![1]⟩ false true true).1.K := by
  constructor
  · rfl
  · have hK2 : (Dyn.dynPartialFit 1 false
        (Dyn.dynPartialFit 1 false Dyn.dynInit ⟨(1, 2), !![1, 2]⟩
          ⟨(1, 1), !![1]⟩ false true true).1
        ⟨(1, 1), !![3]⟩ ⟨(1, 1), !![5]⟩ false true true).1.K
        = some ⟨(2, 2), Matrix.of fun i j =>
            ((!![(1 : ℚ), 2])ᵀ * !![(1 : ℚ), 2]) i j +
              Dyn.dGet ⟨(1, 1), (!![(3 : ℚ)])ᵀ * !![(3 : ℚ)]⟩ i j⟩ := rfl
    have hK1 : (Dyn.dynPartialFit 1 false Dyn.dynInit ⟨(1, 2), !![1, 2]⟩
        ⟨(1, 1), !![1]⟩ false true true).1.K
        = some ⟨(2, 2), (!![(1 : ℚ), 2])ᵀ * !![(1 : ℚ), 2]⟩ := rfl
    rw [hK2, hK1]
    intro h
    have h2 := Option.some.inj h
    have h3 := eq_of_heq ((Sigma.mk.inj_iff.mp h2).2)
    have h4 := congrFun (congrFun h3 0) 0
    norm_num [Dyn.dGet, Matrix.mul_apply, Matrix.transpose_apply, Matrix.of_apply,
      Fin.sum_univ_one] at h4

end PyRCN
